import Mathlib

/-!
Shallow embedding of `src/encoding.rs` from the `windlass` repository: a compact
binary wire codec (VLQ-style variable-length integers, length-prefixed byte
arrays and UTF-8 strings, and a tag-dispatched field layer).

Bytes are modelled as `Nat` (values `< 256` where produced by the encoder), byte
buffers and cursors as `List Nat`.  The Rust decode cursor `&mut &[u8]` is
modelled by explicit state passing: every decode operation takes the cursor and
returns the pair of its `Result` and the final cursor, so that cursor positions
on error paths are captured faithfully.  32-bit machine integers are modelled as
`Nat` (the `u32` bit pattern) with explicit `% 2 ^ 32` where Rust wraps, and as
`Int` where the Rust code works with `i32` (`encode_vlq_int`).
-/

namespace Windlass

/-- Message decoding error (`MessageDecodeError` in `src/encoding.rs`).
The payload of `Utf8Error` models the `std::str::Utf8Error` detail as the
`valid_up_to` byte count reported by UTF-8 validation. -/
inductive MessageDecodeError where
  | UnexpectedEof : MessageDecodeError
  | Utf8Error : Nat → MessageDecodeError
deriving DecidableEq, Repr

/-- Reinterpretation of a `u32` bit pattern as an `i32` (Rust `v as i32`). -/
def toSigned (v : Nat) : Int :=
  if v < 2 ^ 31 then (v : Int) else (v : Int) - 2 ^ 32

/-- Reinterpretation of an `i32` (or any sign-extended narrower integer) as a
`u32` bit pattern (Rust `sv as u32`): the representative of `x` modulo `2^32`. -/
def toUnsigned (x : Int) : Nat :=
  (x % 2 ^ 32).toNat

/-- `encode_vlq_int` from `src/encoding.rs`.  `v` is the `u32` argument
(`v < 2 ^ 32`), `sv = v as i32`.  Rust's `(sv >> k) & 0x7F` (arithmetic shift
then low 7 bits) is `(sv >>> k) % 128` here: `Int.shiftRight` is the arithmetic
shift and `%` on `Int` (`Int.emod`) yields the low 7 bits of the two's
complement pattern.  `as u8` is `Int.toNat` (the operand is in `[0, 128)`). -/
def encode_vlq_int (output : List Nat) (v : Nat) : List Nat :=
  let sv : Int := toSigned v
  let output := if ¬ (-((1 : Int) <<< 26) ≤ sv ∧ sv < (3 : Int) <<< 26) then
    output ++ [((sv >>> (28 : Nat)) % 128).toNat ||| 0x80] else output
  let output := if ¬ (-((1 : Int) <<< 19) ≤ sv ∧ sv < (3 : Int) <<< 19) then
    output ++ [((sv >>> (21 : Nat)) % 128).toNat ||| 0x80] else output
  let output := if ¬ (-((1 : Int) <<< 12) ≤ sv ∧ sv < (3 : Int) <<< 12) then
    output ++ [((sv >>> (14 : Nat)) % 128).toNat ||| 0x80] else output
  let output := if ¬ (-((1 : Int) <<< 5) ≤ sv ∧ sv < (3 : Int) <<< 5) then
    output ++ [((sv >>> (7 : Nat)) % 128).toNat ||| 0x80] else output
  output ++ [(sv % 128).toNat]

/-- `next_byte` from `src/encoding.rs`: pop the first byte of the cursor. -/
def next_byte (data : List Nat) : Except MessageDecodeError Nat × List Nat :=
  match data with
  | [] => (.error .UnexpectedEof, [])
  | b :: rest => (.ok b, rest)

/-- The `while c & 0x80 != 0` loop of `parse_vlq_int`.  `next_byte` is inlined
as a `match` so the recursion is structural on the cursor.  Rust's wrapping
`v << 7` on `u32` is `(v <<< 7) % 2 ^ 32`. -/
def parse_vlq_loop (c v : Nat) (data : List Nat) :
    Except MessageDecodeError Nat × List Nat :=
  if c &&& 0x80 ≠ 0 then
    match data with
    | [] => (.error .UnexpectedEof, [])
    | b :: rest => parse_vlq_loop b (((v <<< 7) % 2 ^ 32) ||| (b &&& 0x7F)) rest
  else
    (.ok v, data)

/-- `parse_vlq_int` from `src/encoding.rs`.  `0xFFFFFFE0` is Rust's
`(-0x20i32) as u32`. -/
def parse_vlq_int (data : List Nat) : Except MessageDecodeError Nat × List Nat :=
  match next_byte data with
  | (.error e, d) => (.error e, d)
  | (.ok c, d) =>
    let v := c &&& 0x7F
    let v := if c &&& 0x60 = 0x60 then v ||| 0xFFFFFFE0 else v
    parse_vlq_loop c v d

/-- Rust `Result::map`, threaded through the explicit cursor state. -/
def mapResult {α β : Type} (f : α → β) :
    Except MessageDecodeError α × List Nat → Except MessageDecodeError β × List Nat
  | (.ok a, d) => (.ok (f a), d)
  | (.error e, d) => (.error e, d)

instance {ε α : Type} [DecidableEq ε] [DecidableEq α] : DecidableEq (Except ε α) :=
  fun a b =>
    match a, b with
    | .error e, .error f =>
      if h : e = f then isTrue (by rw [h])
      else isFalse (fun hc => h (by injection hc))
    | .error _, .ok _ => isFalse (fun hc => Except.noConfusion hc)
    | .ok _, .error _ => isFalse (fun hc => Except.noConfusion hc)
    | .ok x, .ok y =>
      if h : x = y then isTrue (by rw [h])
      else isFalse (fun hc => h (by injection hc))

/-- Rust `v as u16`: truncation of a `u32` pattern to 16 bits. -/
def as_u16 (v : Nat) : Nat := v % 2 ^ 16

/-- Rust `v as u8`: truncation of a `u32` pattern to 8 bits. -/
def as_u8 (v : Nat) : Nat := v % 2 ^ 8

/-- Rust `v as i16`: truncation of a `u32` pattern to 16 bits reinterpreted as
a signed 16-bit value. -/
def as_i16 (v : Nat) : Int :=
  if v % 2 ^ 16 < 2 ^ 15 then ((v % 2 ^ 16 : Nat) : Int) else (v % 2 ^ 16 : Int) - 2 ^ 16

/-! `int_readwrite!` macro instances for `u32`, `i32`, `u16`, `i16`, `u8`:
`read` is `parse_vlq_int(data).map(|v| v as T)`, `skip` is
`parse_vlq_int(data).map(|_| ())`, `write` is `encode_vlq_int(output, *self as u32)`.
`u32` values are `Nat < 2^32`, `i32` values are `Int` in `[-2^31, 2^31)`,
`u16`/`u8` values are `Nat` below `2^16`/`2^8`, `i16` values are `Int` in
`[-2^15, 2^15)`. -/

def u32_read (data : List Nat) : Except MessageDecodeError Nat × List Nat :=
  mapResult (fun v => v) (parse_vlq_int data)

def u32_skip (data : List Nat) : Except MessageDecodeError Unit × List Nat :=
  mapResult (fun _ => ()) (parse_vlq_int data)

def u32_write (output : List Nat) (v : Nat) : List Nat :=
  encode_vlq_int output v

def i32_read (data : List Nat) : Except MessageDecodeError Int × List Nat :=
  mapResult (fun v => toSigned v) (parse_vlq_int data)

def i32_skip (data : List Nat) : Except MessageDecodeError Unit × List Nat :=
  mapResult (fun _ => ()) (parse_vlq_int data)

def i32_write (output : List Nat) (x : Int) : List Nat :=
  encode_vlq_int output (toUnsigned x)

def u16_read (data : List Nat) : Except MessageDecodeError Nat × List Nat :=
  mapResult (fun v => as_u16 v) (parse_vlq_int data)

def u16_skip (data : List Nat) : Except MessageDecodeError Unit × List Nat :=
  mapResult (fun _ => ()) (parse_vlq_int data)

def u16_write (output : List Nat) (v : Nat) : List Nat :=
  encode_vlq_int output v

def i16_read (data : List Nat) : Except MessageDecodeError Int × List Nat :=
  mapResult (fun v => as_i16 v) (parse_vlq_int data)

def i16_skip (data : List Nat) : Except MessageDecodeError Unit × List Nat :=
  mapResult (fun _ => ()) (parse_vlq_int data)

/-- Rust `*self as u32` for an `i16` sign-extends, i.e. takes the nonnegative
representative of `x` modulo `2 ^ 32`. -/
def i16_write (output : List Nat) (x : Int) : List Nat :=
  encode_vlq_int output (toUnsigned x)

def u8_read (data : List Nat) : Except MessageDecodeError Nat × List Nat :=
  mapResult (fun v => as_u8 v) (parse_vlq_int data)

def u8_skip (data : List Nat) : Except MessageDecodeError Unit × List Nat :=
  mapResult (fun _ => ()) (parse_vlq_int data)

def u8_write (output : List Nat) (v : Nat) : List Nat :=
  encode_vlq_int output v

/-! `impl Readable/Writable for bool`: `read` maps the VLQ value through
`|v| v != 0`, `write` encodes `u32::from(*self)`. -/

def bool_read (data : List Nat) : Except MessageDecodeError Bool × List Nat :=
  mapResult (fun v => v ≠ 0) (parse_vlq_int data)

def bool_skip (data : List Nat) : Except MessageDecodeError Unit × List Nat :=
  mapResult (fun _ => ()) (parse_vlq_int data)

def bool_write (output : List Nat) (b : Bool) : List Nat :=
  encode_vlq_int output (if b then 1 else 0)

/-! `impl Readable/Writable for &[u8]`: VLQ length prefix then raw bytes. -/

def bytes_read (data : List Nat) :
    Except MessageDecodeError (List Nat) × List Nat :=
  match parse_vlq_int data with
  | (.error e, d) => (.error e, d)
  | (.ok len, d) =>
    if d.length < len then (.error .UnexpectedEof, d)
    else (.ok (d.take len), d.drop len)

def bytes_skip (data : List Nat) : Except MessageDecodeError Unit × List Nat :=
  match parse_vlq_int data with
  | (.error e, d) => (.error e, d)
  | (.ok len, d) =>
    if d.length < len then (.error .UnexpectedEof, d)
    else (.ok (), d.drop len)

/-- Rust `self.len() as u32` truncates a 64-bit `usize` length to 32 bits. -/
def bytes_write (output : List Nat) (v : List Nat) : List Nat :=
  encode_vlq_int output (v.length % 2 ^ 32) ++ v

/-- Modelled from the spec: `std::str::from_utf8` (Rust standard library, not
part of this repository) validates a byte slice as UTF-8.  Per spec section 4.3
the string read "additionally validates the selected byte range as UTF-8" and
fails "with a UTF-8 validity error (carrying the underlying validation failure
detail)".  This is the standard UTF-8 well-formedness check (RFC 3629: no
bytes above 0xF4, no overlong forms, no surrogates, correct continuation
bytes); on failure it reports the index of the first offending sequence, which
models `Utf8Error::valid_up_to`.  `pos` is the number of bytes already
validated. -/
def utf8_check_from (pos : Nat) : List Nat → Except Nat Unit
  | [] => .ok ()
  | b :: rest =>
    if b < 0x80 then utf8_check_from (pos + 1) rest
    else if 0xC2 ≤ b ∧ b ≤ 0xDF then
      match rest with
      | b1 :: rest1 =>
        if 0x80 ≤ b1 ∧ b1 ≤ 0xBF then utf8_check_from (pos + 2) rest1
        else .error pos
      | [] => .error pos
    else if 0xE0 ≤ b ∧ b ≤ 0xEF then
      match rest with
      | b1 :: b2 :: rest2 =>
        if (if b = 0xE0 then 0xA0 ≤ b1 ∧ b1 ≤ 0xBF
            else if b = 0xED then 0x80 ≤ b1 ∧ b1 ≤ 0x9F
            else 0x80 ≤ b1 ∧ b1 ≤ 0xBF) ∧ 0x80 ≤ b2 ∧ b2 ≤ 0xBF then
          utf8_check_from (pos + 3) rest2
        else .error pos
      | _ => .error pos
    else if 0xF0 ≤ b ∧ b ≤ 0xF4 then
      match rest with
      | b1 :: b2 :: b3 :: rest3 =>
        if (if b = 0xF0 then 0x90 ≤ b1 ∧ b1 ≤ 0xBF
            else if b = 0xF4 then 0x80 ≤ b1 ∧ b1 ≤ 0x8F
            else 0x80 ≤ b1 ∧ b1 ≤ 0xBF) ∧ (0x80 ≤ b2 ∧ b2 ≤ 0xBF) ∧
            0x80 ≤ b3 ∧ b3 ≤ 0xBF then
          utf8_check_from (pos + 4) rest3
        else .error pos
      | _ => .error pos
    else .error pos

/-- Modelled from the spec: `std::str::from_utf8` returns the same bytes viewed
as a `&str` on success, or the validation detail on failure.  A Rust `&str` or
`String` is modelled as its list of UTF-8 bytes. -/
def from_utf8 (v : List Nat) : Except Nat (List Nat) :=
  match utf8_check_from 0 v with
  | .ok _ => .ok v
  | .error p => .error p

/-! `impl Readable/Writable for &str`: identical framing to `&[u8]`, with the
payload additionally validated as UTF-8 on `read` (after the cursor has been
advanced past it, as in the source: `*data = &data[len..]` precedes
`from_utf8`). -/

def str_read (data : List Nat) :
    Except MessageDecodeError (List Nat) × List Nat :=
  match parse_vlq_int data with
  | (.error e, d) => (.error e, d)
  | (.ok len, d) =>
    if d.length < len then (.error .UnexpectedEof, d)
    else
      match from_utf8 (d.take len) with
      | .ok s => (.ok s, d.drop len)
      | .error p => (.error (.Utf8Error p), d.drop len)

def str_skip (data : List Nat) : Except MessageDecodeError Unit × List Nat :=
  match parse_vlq_int data with
  | (.error e, d) => (.error e, d)
  | (.ok len, d) =>
    if d.length < len then (.error .UnexpectedEof, d)
    else (.ok (), d.drop len)

def str_write (output : List Nat) (s : List Nat) : List Nat :=
  encode_vlq_int output (s.length % 2 ^ 32) ++ s

/-- `FieldType` from `src/encoding.rs`. -/
inductive FieldType where
  | U32 | I32 | U16 | I16 | U8 | String | ByteArray
deriving DecidableEq, Repr

/-! `impl ToFieldType` tag lookups. -/

def u32_as_field_type : FieldType := FieldType.U32
def i32_as_field_type : FieldType := FieldType.I32
def u16_as_field_type : FieldType := FieldType.U16
def i16_as_field_type : FieldType := FieldType.I16
def u8_as_field_type : FieldType := FieldType.U8
def bool_as_field_type : FieldType := FieldType.U8
def bytes_as_field_type : FieldType := FieldType.ByteArray
def str_as_field_type : FieldType := FieldType.String

/-- `FieldValue` from `src/encoding.rs`.  Owned `String`/`Vec<u8>` payloads are
modelled as byte lists; Rust's `.into()` copy from the borrowed view to the
owned form is the identity on the modelled bytes. -/
inductive FieldValue where
  | U32 : Nat → FieldValue
  | I32 : Int → FieldValue
  | U16 : Nat → FieldValue
  | I16 : Int → FieldValue
  | U8 : Nat → FieldValue
  | String : List Nat → FieldValue
  | ByteArray : List Nat → FieldValue
deriving DecidableEq, Repr

/-- `FieldType::skip`: routes to the matching typed `skip`. -/
def FieldType.skip (ft : FieldType) (input : List Nat) :
    Except MessageDecodeError Unit × List Nat :=
  match ft with
  | .U32 => u32_skip input
  | .I32 => i32_skip input
  | .U16 => u16_skip input
  | .I16 => i16_skip input
  | .U8 => u8_skip input
  | .String => str_skip input
  | .ByteArray => bytes_skip input

/-- `FieldType::read`: routes to the matching typed `read` and wraps the result
in the corresponding `FieldValue` variant (`.into()` on string / byte-array
content, the identity on the modelled bytes). -/
def FieldType.read (ft : FieldType) (input : List Nat) :
    Except MessageDecodeError FieldValue × List Nat :=
  match ft with
  | .U32 => mapResult FieldValue.U32 (u32_read input)
  | .I32 => mapResult FieldValue.I32 (i32_read input)
  | .U16 => mapResult FieldValue.U16 (u16_read input)
  | .I16 => mapResult FieldValue.I16 (i16_read input)
  | .U8 => mapResult FieldValue.U8 (u8_read input)
  | .String => mapResult FieldValue.String (str_read input)
  | .ByteArray => mapResult FieldValue.ByteArray (bytes_read input)

/-! ## Arithmetic bridges for the bitwise operations -/

set_option maxRecDepth 10000

lemma land_7f (c : Nat) : c &&& 0x7F = c % 128 := by
  have h := Nat.and_pow_two_sub_one_eq_mod c 7
  norm_num at h
  exact h

lemma lor_80_eq_add {a : Nat} (h : a < 128) : a ||| 0x80 = a + 128 := by
  have h2 : a < 2 ^ 7 := by omega
  have h3 := Nat.mul_add_lt_is_or h2 1
  rw [Nat.lor_comm] at h3
  norm_num at h3
  omega

lemma cont_lor_80 (a : Nat) : (a ||| 0x80) &&& 0x80 ≠ 0 := by
  have ht : (a ||| 128).testBit 7 = true := by
    rw [Nat.testBit_lor]
    have h128 : (128 : Nat).testBit 7 = true := by decide
    simp [h128]
  have h := Nat.and_two_pow (a ||| 128) 7
  rw [ht] at h
  norm_num at h
  omega

lemma stop_lt_128 {c : Nat} (h : c < 128) : c &&& 0x80 = 0 := by
  have ht : c.testBit 7 = false := Nat.testBit_lt_two_pow (by omega)
  have h2 := Nat.and_two_pow c 7
  rw [ht] at h2
  norm_num at h2
  exact h2

lemma sign_cond_lor {a : Nat} (h : a < 128) :
    ((a ||| 0x80) &&& 0x60 = 0x60) ↔ 96 ≤ a := by
  have H : ∀ a < 128, (((a ||| 0x80) &&& 0x60 = 0x60) ↔ 96 ≤ a) := by decide
  exact H a h

lemma sign_cond_plain {a : Nat} (h : a < 128) :
    (a &&& 0x60 = 0x60) ↔ 96 ≤ a := by
  have H : ∀ a < 128, ((a &&& 0x60 = 0x60) ↔ 96 ≤ a) := by decide
  exact H a h

lemma ext_lor {a : Nat} (h : a < 128) (h96 : 96 ≤ a) :
    a ||| 0xFFFFFFE0 = 0xFFFFFFE0 + a % 32 := by
  have H : ∀ a < 128, 96 ≤ a → a ||| 0xFFFFFFE0 = 0xFFFFFFE0 + a % 32 := by decide
  exact H a h h96

lemma fold_eq (x w : Nat) :
    ((x <<< 7) % 2 ^ 32) ||| (w % 128) = x % 2 ^ 25 * 128 + w % 128 := by
  rw [Nat.shiftLeft_eq]
  have h1 : x * 2 ^ 7 % 2 ^ 32 = x % 2 ^ 25 * 2 ^ 7 := by omega
  rw [h1]
  have hw7 : w % 128 < 2 ^ 7 := by omega
  have h2 := Nat.mul_add_lt_is_or hw7 (x % 2 ^ 25)
  have h3 : x % 2 ^ 25 * 2 ^ 7 ||| (w % 128) = 2 ^ 7 * (x % 2 ^ 25) ||| (w % 128) := by
    rw [Nat.mul_comm]
  rw [h3, ← h2]
  omega

/-! ## Shape of the bytes and conditions of `encode_vlq_int` in plain
`Nat` arithmetic over the `u32` pattern `v` -/

lemma enc_byte0 {v : Nat} (hv : v < 2 ^ 32) :
    ((toSigned v) % 128).toNat = v % 128 := by
  unfold toSigned
  split_ifs <;> omega

lemma enc_byte7 {v : Nat} (hv : v < 2 ^ 32) :
    ((toSigned v >>> (7 : Nat)) % 128).toNat = v / 2 ^ 7 % 128 := by
  rw [Int.shiftRight_eq_div_pow]
  unfold toSigned
  split_ifs <;> push_cast <;> omega

lemma enc_byte14 {v : Nat} (hv : v < 2 ^ 32) :
    ((toSigned v >>> (14 : Nat)) % 128).toNat = v / 2 ^ 14 % 128 := by
  rw [Int.shiftRight_eq_div_pow]
  unfold toSigned
  split_ifs <;> push_cast <;> omega

lemma enc_byte21 {v : Nat} (hv : v < 2 ^ 32) :
    ((toSigned v >>> (21 : Nat)) % 128).toNat = v / 2 ^ 21 % 128 := by
  rw [Int.shiftRight_eq_div_pow]
  unfold toSigned
  split_ifs <;> push_cast <;> omega

lemma enc_byte28 {v : Nat} (hv : v < 2 ^ 32) :
    ((toSigned v >>> (28 : Nat)) % 128).toNat = v / 2 ^ 28 + 112 * (v / 2 ^ 31) := by
  rw [Int.shiftRight_eq_div_pow]
  unfold toSigned
  split_ifs <;> push_cast <;> omega

lemma cond_26 {v : Nat} (hv : v < 2 ^ 32) :
    (¬ (-((1 : Int) <<< 26) ≤ toSigned v ∧ toSigned v < (3 : Int) <<< 26)) ↔
      (3 * 2 ^ 26 ≤ v ∧ v < 2 ^ 32 - 2 ^ 26) := by
  have e1 : ((1 : Int) <<< (26 : Int)) = 67108864 := by decide
  have e2 : ((3 : Int) <<< (26 : Int)) = 201326592 := by decide
  rw [e1, e2]
  unfold toSigned
  split_ifs <;> omega

lemma cond_19 {v : Nat} (hv : v < 2 ^ 32) :
    (¬ (-((1 : Int) <<< 19) ≤ toSigned v ∧ toSigned v < (3 : Int) <<< 19)) ↔
      (3 * 2 ^ 19 ≤ v ∧ v < 2 ^ 32 - 2 ^ 19) := by
  have e1 : ((1 : Int) <<< (19 : Int)) = 524288 := by decide
  have e2 : ((3 : Int) <<< (19 : Int)) = 1572864 := by decide
  rw [e1, e2]
  unfold toSigned
  split_ifs <;> omega

lemma cond_12 {v : Nat} (hv : v < 2 ^ 32) :
    (¬ (-((1 : Int) <<< 12) ≤ toSigned v ∧ toSigned v < (3 : Int) <<< 12)) ↔
      (3 * 2 ^ 12 ≤ v ∧ v < 2 ^ 32 - 2 ^ 12) := by
  have e1 : ((1 : Int) <<< (12 : Int)) = 4096 := by decide
  have e2 : ((3 : Int) <<< (12 : Int)) = 12288 := by decide
  rw [e1, e2]
  unfold toSigned
  split_ifs <;> omega

lemma cond_5 {v : Nat} (hv : v < 2 ^ 32) :
    (¬ (-((1 : Int) <<< 5) ≤ toSigned v ∧ toSigned v < (3 : Int) <<< 5)) ↔
      (3 * 2 ^ 5 ≤ v ∧ v < 2 ^ 32 - 2 ^ 5) := by
  have e1 : ((1 : Int) <<< (5 : Int)) = 32 := by decide
  have e2 : ((3 : Int) <<< (5 : Int)) = 96 := by decide
  rw [e1, e2]
  unfold toSigned
  split_ifs <;> omega

/-! ## Evaluation rules for the decoder -/

lemma parse_vlq_int_cons (c : Nat) (d : List Nat) :
    parse_vlq_int (c :: d) =
      parse_vlq_loop c
        (if c &&& 0x60 = 0x60 then (c &&& 0x7F) ||| 0xFFFFFFE0 else c &&& 0x7F)
        d := rfl

lemma parse_vlq_loop_step {c : Nat} (h : c &&& 0x80 ≠ 0) (v b : Nat)
    (d : List Nat) :
    parse_vlq_loop c v (b :: d) =
      parse_vlq_loop b (((v <<< 7) % 2 ^ 32) ||| (b &&& 0x7F)) d := by
  rw [parse_vlq_loop.eq_def]
  simp [h]

lemma parse_vlq_loop_stop {c : Nat} (h : c &&& 0x80 = 0) (v : Nat)
    (d : List Nat) :
    parse_vlq_loop c v d = (.ok v, d) := by
  rw [parse_vlq_loop.eq_def]
  simp [h]

lemma lor80_land7f {a : Nat} (h : a < 128) : (a ||| 0x80) &&& 0x7F = a := by
  rw [lor_80_eq_add h, land_7f]
  omega

/-- Writing appends: `encode_vlq_int output v = output ++ encode_vlq_int [] v`. -/
lemma encode_vlq_int_append (output : List Nat) (v : Nat) :
    encode_vlq_int output v = output ++ encode_vlq_int [] v := by
  simp only [encode_vlq_int]
  split_ifs <;> simp

/-- The core VLQ round-trip: for every `u32` pattern `v`, parsing the encoding
of `v` (followed by any further bytes) yields exactly `v` and leaves exactly
the further bytes. -/
theorem vlq_roundtrip (v : Nat) (hv : v < 2 ^ 32) (rest : List Nat) :
    parse_vlq_int (encode_vlq_int [] v ++ rest) = (.ok v, rest) := by
  have hb0 : v % 128 < 128 := Nat.mod_lt _ (by norm_num)
  have hb7 : v / 2 ^ 7 % 128 < 128 := Nat.mod_lt _ (by norm_num)
  have hb14 : v / 2 ^ 14 % 128 < 128 := Nat.mod_lt _ (by norm_num)
  have hb21 : v / 2 ^ 21 % 128 < 128 := Nat.mod_lt _ (by norm_num)
  have hb28 : v / 2 ^ 28 + 112 * (v / 2 ^ 31) < 128 := by omega
  simp only [encode_vlq_int]
  by_cases c5 : 3 * 2 ^ 5 ≤ v ∧ v < 2 ^ 32 - 2 ^ 5
  case neg =>
    -- one byte
    have c12 : ¬ (3 * 2 ^ 12 ≤ v ∧ v < 2 ^ 32 - 2 ^ 12) := by omega
    have c19 : ¬ (3 * 2 ^ 19 ≤ v ∧ v < 2 ^ 32 - 2 ^ 19) := by omega
    have c26 : ¬ (3 * 2 ^ 26 ≤ v ∧ v < 2 ^ 32 - 2 ^ 26) := by omega
    rw [if_neg (fun hc => c26 ((cond_26 hv).mp hc)),
        if_neg (fun hc => c19 ((cond_19 hv).mp hc)),
        if_neg (fun hc => c12 ((cond_12 hv).mp hc)),
        if_neg (fun hc => c5 ((cond_5 hv).mp hc)), enc_byte0 hv]
    simp only [List.nil_append, List.singleton_append, List.cons_append]
    rw [parse_vlq_int_cons, parse_vlq_loop_stop (stop_lt_128 hb0)]
    simp only [land_7f, sign_cond_plain hb0, Nat.mod_mod]
    split_ifs with hs
    · rw [ext_lor (by omega) hs]
      simp only [Prod.mk.injEq, Except.ok.injEq, and_true]
      omega
    · simp only [Prod.mk.injEq, Except.ok.injEq, and_true]
      omega
  case pos =>
  by_cases c12 : 3 * 2 ^ 12 ≤ v ∧ v < 2 ^ 32 - 2 ^ 12
  case neg =>
    -- two bytes
    have c19 : ¬ (3 * 2 ^ 19 ≤ v ∧ v < 2 ^ 32 - 2 ^ 19) := by omega
    have c26 : ¬ (3 * 2 ^ 26 ≤ v ∧ v < 2 ^ 32 - 2 ^ 26) := by omega
    rw [if_neg (fun hc => c26 ((cond_26 hv).mp hc)),
        if_neg (fun hc => c19 ((cond_19 hv).mp hc)),
        if_neg (fun hc => c12 ((cond_12 hv).mp hc)),
        if_pos ((cond_5 hv).mpr c5), enc_byte0 hv, enc_byte7 hv]
    simp only [List.nil_append, List.singleton_append, List.cons_append]
    rw [parse_vlq_int_cons, parse_vlq_loop_step (cont_lor_80 _),
        parse_vlq_loop_stop (stop_lt_128 hb0)]
    simp only [lor80_land7f hb7, sign_cond_lor hb7, land_7f, Nat.mod_mod, fold_eq]
    split_ifs with hs
    · rw [ext_lor hb7 hs]
      simp only [Prod.mk.injEq, Except.ok.injEq, and_true]
      omega
    · simp only [Prod.mk.injEq, Except.ok.injEq, and_true]
      omega
  case pos =>
  by_cases c19 : 3 * 2 ^ 19 ≤ v ∧ v < 2 ^ 32 - 2 ^ 19
  case neg =>
    -- three bytes
    have c26 : ¬ (3 * 2 ^ 26 ≤ v ∧ v < 2 ^ 32 - 2 ^ 26) := by omega
    rw [if_neg (fun hc => c26 ((cond_26 hv).mp hc)),
        if_neg (fun hc => c19 ((cond_19 hv).mp hc)),
        if_pos ((cond_12 hv).mpr c12),
        if_pos ((cond_5 hv).mpr c5), enc_byte0 hv, enc_byte7 hv, enc_byte14 hv]
    simp only [List.nil_append, List.singleton_append, List.cons_append]
    rw [parse_vlq_int_cons, parse_vlq_loop_step (cont_lor_80 _),
        parse_vlq_loop_step (cont_lor_80 _),
        parse_vlq_loop_stop (stop_lt_128 hb0)]
    simp only [lor80_land7f hb7, lor80_land7f hb14, sign_cond_lor hb14, land_7f,
      Nat.mod_mod, fold_eq]
    split_ifs with hs
    · rw [ext_lor hb14 hs]
      simp only [Prod.mk.injEq, Except.ok.injEq, and_true]
      omega
    · simp only [Prod.mk.injEq, Except.ok.injEq, and_true]
      omega
  case pos =>
  by_cases c26 : 3 * 2 ^ 26 ≤ v ∧ v < 2 ^ 32 - 2 ^ 26
  case neg =>
    -- four bytes
    rw [if_neg (fun hc => c26 ((cond_26 hv).mp hc)),
        if_pos ((cond_19 hv).mpr c19),
        if_pos ((cond_12 hv).mpr c12),
        if_pos ((cond_5 hv).mpr c5), enc_byte0 hv, enc_byte7 hv, enc_byte14 hv,
        enc_byte21 hv]
    simp only [List.nil_append, List.singleton_append, List.cons_append]
    rw [parse_vlq_int_cons, parse_vlq_loop_step (cont_lor_80 _),
        parse_vlq_loop_step (cont_lor_80 _), parse_vlq_loop_step (cont_lor_80 _),
        parse_vlq_loop_stop (stop_lt_128 hb0)]
    simp only [lor80_land7f hb7, lor80_land7f hb14, lor80_land7f hb21,
      sign_cond_lor hb21, land_7f, Nat.mod_mod, fold_eq]
    split_ifs with hs
    · rw [ext_lor hb21 hs]
      simp only [Prod.mk.injEq, Except.ok.injEq, and_true]
      omega
    · simp only [Prod.mk.injEq, Except.ok.injEq, and_true]
      omega
  case pos =>
    -- five bytes
    rw [if_pos ((cond_26 hv).mpr c26),
        if_pos ((cond_19 hv).mpr c19),
        if_pos ((cond_12 hv).mpr c12),
        if_pos ((cond_5 hv).mpr c5), enc_byte0 hv, enc_byte7 hv, enc_byte14 hv,
        enc_byte21 hv, enc_byte28 hv]
    simp only [List.nil_append, List.singleton_append, List.cons_append]
    rw [parse_vlq_int_cons, parse_vlq_loop_step (cont_lor_80 _),
        parse_vlq_loop_step (cont_lor_80 _), parse_vlq_loop_step (cont_lor_80 _),
        parse_vlq_loop_step (cont_lor_80 _),
        parse_vlq_loop_stop (stop_lt_128 hb0)]
    simp only [lor80_land7f hb7, lor80_land7f hb14, lor80_land7f hb21,
      lor80_land7f hb28, sign_cond_lor hb28, land_7f, Nat.mod_mod, fold_eq]
    split_ifs with hs
    · rw [ext_lor hb28 hs]
      simp only [Prod.mk.injEq, Except.ok.injEq, and_true]
      omega
    · simp only [Prod.mk.injEq, Except.ok.injEq, and_true]
      omega

/-- Exact byte count of the encoder, by the nested range conditions. -/
lemma encode_vlq_length_spec (v : Nat) (hv : v < 2 ^ 32) :
    (encode_vlq_int [] v).length =
      if 3 * 2 ^ 26 ≤ v ∧ v < 2 ^ 32 - 2 ^ 26 then 5
      else if 3 * 2 ^ 19 ≤ v ∧ v < 2 ^ 32 - 2 ^ 19 then 4
      else if 3 * 2 ^ 12 ≤ v ∧ v < 2 ^ 32 - 2 ^ 12 then 3
      else if 3 * 2 ^ 5 ≤ v ∧ v < 2 ^ 32 - 2 ^ 5 then 2
      else 1 := by
  simp only [encode_vlq_int]
  by_cases c26 : 3 * 2 ^ 26 ≤ v ∧ v < 2 ^ 32 - 2 ^ 26
  · rw [if_pos ((cond_26 hv).mpr c26), if_pos ((cond_19 hv).mpr (by omega)),
        if_pos ((cond_12 hv).mpr (by omega)), if_pos ((cond_5 hv).mpr (by omega)),
        if_pos c26]
    simp
  by_cases c19 : 3 * 2 ^ 19 ≤ v ∧ v < 2 ^ 32 - 2 ^ 19
  · rw [if_neg (fun hc => c26 ((cond_26 hv).mp hc)), if_pos ((cond_19 hv).mpr c19),
        if_pos ((cond_12 hv).mpr (by omega)), if_pos ((cond_5 hv).mpr (by omega)),
        if_neg c26, if_pos c19]
    simp
  by_cases c12 : 3 * 2 ^ 12 ≤ v ∧ v < 2 ^ 32 - 2 ^ 12
  · rw [if_neg (fun hc => c26 ((cond_26 hv).mp hc)),
        if_neg (fun hc => c19 ((cond_19 hv).mp hc)),
        if_pos ((cond_12 hv).mpr c12), if_pos ((cond_5 hv).mpr (by omega)),
        if_neg c26, if_neg c19, if_pos c12]
    simp
  by_cases c5 : 3 * 2 ^ 5 ≤ v ∧ v < 2 ^ 32 - 2 ^ 5
  · rw [if_neg (fun hc => c26 ((cond_26 hv).mp hc)),
        if_neg (fun hc => c19 ((cond_19 hv).mp hc)),
        if_neg (fun hc => c12 ((cond_12 hv).mp hc)),
        if_pos ((cond_5 hv).mpr c5), if_neg c26, if_neg c19, if_neg c12, if_pos c5]
    simp
  · rw [if_neg (fun hc => c26 ((cond_26 hv).mp hc)),
        if_neg (fun hc => c19 ((cond_19 hv).mp hc)),
        if_neg (fun hc => c12 ((cond_12 hv).mp hc)),
        if_neg (fun hc => c5 ((cond_5 hv).mp hc)),
        if_neg c26, if_neg c19, if_neg c12, if_neg c5]
    simp

lemma encode_vlq_length_bounds (v : Nat) (hv : v < 2 ^ 32) :
    1 ≤ (encode_vlq_int [] v).length ∧ (encode_vlq_int [] v).length ≤ 5 := by
  rw [encode_vlq_length_spec v hv]
  split_ifs <;> omega

lemma toUnsigned_lt (x : Int) : toUnsigned x < 2 ^ 32 := by
  unfold toUnsigned
  omega

lemma toSigned_toUnsigned {x : Int} (h1 : -(2 ^ 31) ≤ x) (h2 : x < 2 ^ 31) :
    toSigned (toUnsigned x) = x := by
  unfold toSigned toUnsigned
  split_ifs <;> omega

lemma as_i16_toUnsigned {x : Int} (h1 : -(2 ^ 15) ≤ x) (h2 : x < 2 ^ 15) :
    as_i16 (toUnsigned x) = x := by
  unfold as_i16 toUnsigned
  split_ifs <;> omega

lemma u32_roundtrip (v : Nat) (hv : v < 2 ^ 32) (rest : List Nat) :
    u32_read (u32_write [] v ++ rest) = (.ok v, rest) := by
  rw [u32_read, u32_write, vlq_roundtrip v hv rest, mapResult]

lemma i32_roundtrip (x : Int) (h1 : -(2 ^ 31) ≤ x) (h2 : x < 2 ^ 31)
    (rest : List Nat) :
    i32_read (i32_write [] x ++ rest) = (.ok x, rest) := by
  rw [i32_read, i32_write, vlq_roundtrip (toUnsigned x) (toUnsigned_lt x) rest,
    mapResult, toSigned_toUnsigned h1 h2]

lemma u16_roundtrip (v : Nat) (hv : v < 2 ^ 16) (rest : List Nat) :
    u16_read (u16_write [] v ++ rest) = (.ok v, rest) := by
  have h : as_u16 v = v := by unfold as_u16; omega
  rw [u16_read, u16_write, vlq_roundtrip v (by omega) rest, mapResult, h]

lemma i16_roundtrip (x : Int) (h1 : -(2 ^ 15) ≤ x) (h2 : x < 2 ^ 15)
    (rest : List Nat) :
    i16_read (i16_write [] x ++ rest) = (.ok x, rest) := by
  rw [i16_read, i16_write, vlq_roundtrip (toUnsigned x) (toUnsigned_lt x) rest,
    mapResult, as_i16_toUnsigned h1 h2]

lemma u8_roundtrip (v : Nat) (hv : v < 2 ^ 8) (rest : List Nat) :
    u8_read (u8_write [] v ++ rest) = (.ok v, rest) := by
  have h : as_u8 v = v := by unfold as_u8; omega
  rw [u8_read, u8_write, vlq_roundtrip v (by omega) rest, mapResult, h]

/-! ## Structural facts about the decoder: value bound, prefix determinism,
truncation, and the continuation-bit characterization -/

lemma fold_lt (x w : Nat) : ((x <<< 7) % 2 ^ 32) ||| (w &&& 0x7F) < 2 ^ 32 := by
  rw [land_7f, fold_eq]
  omega

lemma parse_vlq_loop_lt :
    ∀ (data : List Nat) (c v : Nat), v < 2 ^ 32 →
      ∀ w r, parse_vlq_loop c v data = (.ok w, r) → w < 2 ^ 32 := by
  intro data
  induction data with
  | nil =>
    intro c v hv w r h
    rw [parse_vlq_loop.eq_def] at h
    by_cases hc : c &&& 0x80 ≠ 0 <;> simp [hc] at h
    omega
  | cons b rest ih =>
    intro c v hv w r h
    rw [parse_vlq_loop.eq_def] at h
    by_cases hc : c &&& 0x80 ≠ 0
    · simp only [if_pos hc] at h
      exact ih b _ (fold_lt v b) w r h
    · simp [hc] at h
      omega

lemma parse_vlq_int_lt {data : List Nat} {w : Nat} {r : List Nat}
    (h : parse_vlq_int data = (.ok w, r)) : w < 2 ^ 32 := by
  cases data with
  | nil => simp [parse_vlq_int, next_byte] at h
  | cons c rest =>
    rw [parse_vlq_int_cons] at h
    refine parse_vlq_loop_lt rest c _ ?_ w r h
    have h7 : c &&& 0x7F < 2 ^ 32 := by rw [land_7f]; omega
    split_ifs with hs
    · by_cases h96 : c &&& 0x7F < 2 ^ 32
      · have H : ∀ a < 128, a ||| 0xFFFFFFE0 < 2 ^ 32 := by decide
        exact H _ (by rw [land_7f]; omega)
      · omega
    · exact h7

lemma parse_vlq_loop_prefix :
    ∀ (data : List Nat) (c v w : Nat) (r : List Nat),
      parse_vlq_loop c v data = (.ok w, r) →
      ∃ p, data = p ++ r ∧
        ∀ r', parse_vlq_loop c v (p ++ r') = (.ok w, r') := by
  intro data
  induction data with
  | nil =>
    intro c v w r h
    rw [parse_vlq_loop.eq_def] at h
    by_cases hc : c &&& 0x80 ≠ 0 <;> simp [hc] at h
    obtain ⟨hw, hr⟩ := h
    refine ⟨[], by simp [hr], fun r' => ?_⟩
    rw [parse_vlq_loop.eq_def]
    simp [hc, hw]
  | cons b rest ih =>
    intro c v w r h
    rw [parse_vlq_loop.eq_def] at h
    by_cases hc : c &&& 0x80 ≠ 0
    · simp only [if_pos hc] at h
      obtain ⟨p, hp, hall⟩ := ih b _ w r h
      refine ⟨b :: p, by simp [hp], fun r' => ?_⟩
      rw [parse_vlq_loop.eq_def]
      simp only [if_pos hc, List.cons_append]
      exact hall r'
    · have hc' : c &&& 0x80 = 0 := by omega
      rw [if_neg hc] at h
      have hw : v = w := by
        have h1 := congrArg Prod.fst h
        simpa using h1
      have hr : b :: rest = r := congrArg Prod.snd h
      refine ⟨[], by simpa using hr, fun r' => ?_⟩
      rw [List.nil_append, parse_vlq_loop_stop hc', hw]

lemma parse_vlq_int_prefix {data : List Nat} {w : Nat} {r : List Nat}
    (h : parse_vlq_int data = (.ok w, r)) :
    ∃ p, data = p ++ r ∧ ∀ r', parse_vlq_int (p ++ r') = (.ok w, r') := by
  cases data with
  | nil => simp [parse_vlq_int, next_byte] at h
  | cons c rest =>
    rw [parse_vlq_int_cons] at h
    obtain ⟨p, hp, hall⟩ := parse_vlq_loop_prefix rest c _ w r h
    refine ⟨c :: p, by simp [hp], fun r' => ?_⟩
    rw [List.cons_append, parse_vlq_int_cons]
    exact hall r'

lemma parse_vlq_loop_truncation :
    ∀ (data : List Nat) (c v w : Nat),
      c &&& 0x80 ≠ 0 → parse_vlq_loop c v data = (.ok w, []) →
      parse_vlq_loop c v data.dropLast = (.error .UnexpectedEof, []) := by
  intro data
  induction data with
  | nil =>
    intro c v w hc h
    rw [parse_vlq_loop.eq_def] at h
    simp [hc] at h
  | cons b rest ih =>
    intro c v w hc h
    rw [parse_vlq_loop.eq_def] at h
    simp only [if_pos hc] at h
    by_cases hb : b &&& 0x80 ≠ 0
    · cases rest with
      | nil =>
        rw [parse_vlq_loop.eq_def] at h
        simp [hb] at h
      | cons b2 rest2 =>
        have hd : (b :: b2 :: rest2).dropLast = b :: (b2 :: rest2).dropLast := by
          simp
        rw [hd, parse_vlq_loop.eq_def]
        simp only [if_pos hc]
        exact ih b _ w hb h
    · have hb' : b &&& 0x80 = 0 := by omega
      rw [parse_vlq_loop_stop hb'] at h
      have hrest : rest = [] := congrArg Prod.snd h
      subst hrest
      rw [parse_vlq_loop.eq_def]
      simp [hc]

lemma parse_vlq_int_truncation {data : List Nat} {w : Nat}
    (h : parse_vlq_int data = (.ok w, [])) :
    parse_vlq_int data.dropLast = (.error .UnexpectedEof, []) := by
  cases data with
  | nil => simp [parse_vlq_int, next_byte] at h
  | cons c rest =>
    rw [parse_vlq_int_cons] at h
    by_cases hc : c &&& 0x80 ≠ 0
    · cases rest with
      | nil =>
        rw [parse_vlq_loop.eq_def] at h
        simp [hc] at h
      | cons b rest2 =>
        have hd : (c :: b :: rest2).dropLast = c :: (b :: rest2).dropLast := by
          simp
        rw [hd, parse_vlq_int_cons]
        exact parse_vlq_loop_truncation (b :: rest2) c _ w hc h
    · have hc' : c &&& 0x80 = 0 := by omega
      rw [parse_vlq_loop_stop hc'] at h
      have hrest : rest = [] := congrArg Prod.snd h
      subst hrest
      simp [parse_vlq_int, next_byte]

lemma parse_vlq_loop_all_cont :
    ∀ (data : List Nat) (c v : Nat),
      (∀ x ∈ data, x &&& 0x80 ≠ 0) → c &&& 0x80 ≠ 0 →
      parse_vlq_loop c v data = (.error .UnexpectedEof, []) := by
  intro data
  induction data with
  | nil =>
    intro c v _ hc
    rw [parse_vlq_loop.eq_def]
    simp [hc]
  | cons b rest ih =>
    intro c v hall hc
    rw [parse_vlq_loop.eq_def]
    simp only [if_pos hc]
    exact ih b _ (fun x hx => hall x (by simp [hx])) (hall b (by simp))

lemma parse_vlq_loop_first_clear :
    ∀ (p : List Nat) (c v : Nat) (b : Nat) (r : List Nat),
      (∀ x ∈ p, x &&& 0x80 ≠ 0) → c &&& 0x80 ≠ 0 → b &&& 0x80 = 0 →
      v < 2 ^ 32 →
      ∃ w, parse_vlq_loop c v (p ++ b :: r) = (.ok w, r) ∧ w < 2 ^ 32 := by
  intro p
  induction p with
  | nil =>
    intro c v b r _ hc hb hv
    rw [List.nil_append, parse_vlq_loop_step hc, parse_vlq_loop_stop hb]
    exact ⟨_, rfl, fold_lt v b⟩
  | cons x p' ih =>
    intro c v b r hall hc hb hv
    rw [List.cons_append, parse_vlq_loop_step hc]
    exact ih x _ b r (fun y hy => hall y (by simp [hy])) (hall x (by simp)) hb
      (fold_lt v x)

/-! ## Evaluation lemmas for the typed readers -/

lemma mapResult_parse_ok {α : Type} (f : Nat → α) {data : List Nat} {v : Nat}
    {d : List Nat} (h : parse_vlq_int data = (.ok v, d)) :
    mapResult f (parse_vlq_int data) = (.ok (f v), d) := by
  rw [h, mapResult]

lemma mapResult_parse_error {α : Type} (f : Nat → α) {data : List Nat}
    {e : MessageDecodeError} {d : List Nat}
    (h : parse_vlq_int data = (.error e, d)) :
    mapResult f (parse_vlq_int data) = (.error e, d) := by
  rw [h, mapResult]

lemma mapResult_eq_ok {α β : Type} {f : α → β}
    {p : Except MessageDecodeError α × List Nat} {b : β} {rest : List Nat} :
    mapResult f p = (.ok b, rest) ↔ ∃ a, p = (.ok a, rest) ∧ b = f a := by
  obtain ⟨res, d⟩ := p
  cases res <;> simp [mapResult] <;> aesop

lemma mapResult_fst_error {α β : Type} {f : α → β}
    {p : Except MessageDecodeError α × List Nat} {e : MessageDecodeError} :
    (mapResult f p).1 = .error e ↔ p.1 = .error e := by
  obtain ⟨res, d⟩ := p
  cases res <;> simp [mapResult]

lemma bytes_read_ok {data : List Nat} {len : Nat} {d : List Nat}
    (hp : parse_vlq_int data = (.ok len, d)) (hlen : ¬ d.length < len) :
    bytes_read data = (.ok (d.take len), d.drop len) := by
  simp [bytes_read, hp, hlen]

lemma bytes_read_eof {data : List Nat} {len : Nat} {d : List Nat}
    (hp : parse_vlq_int data = (.ok len, d)) (hlen : d.length < len) :
    bytes_read data = (.error .UnexpectedEof, d) := by
  simp [bytes_read, hp, hlen]

lemma bytes_read_err {data : List Nat} {e : MessageDecodeError} {d : List Nat}
    (hp : parse_vlq_int data = (.error e, d)) :
    bytes_read data = (.error e, d) := by
  simp [bytes_read, hp]

lemma bytes_skip_ok {data : List Nat} {len : Nat} {d : List Nat}
    (hp : parse_vlq_int data = (.ok len, d)) (hlen : ¬ d.length < len) :
    bytes_skip data = (.ok (), d.drop len) := by
  simp [bytes_skip, hp, hlen]

lemma bytes_skip_eof {data : List Nat} {len : Nat} {d : List Nat}
    (hp : parse_vlq_int data = (.ok len, d)) (hlen : d.length < len) :
    bytes_skip data = (.error .UnexpectedEof, d) := by
  simp [bytes_skip, hp, hlen]

lemma bytes_skip_err {data : List Nat} {e : MessageDecodeError} {d : List Nat}
    (hp : parse_vlq_int data = (.error e, d)) :
    bytes_skip data = (.error e, d) := by
  simp [bytes_skip, hp]

lemma str_read_ok {data : List Nat} {len : Nat} {d : List Nat}
    (hp : parse_vlq_int data = (.ok len, d)) (hlen : ¬ d.length < len)
    (hu : utf8_check_from 0 (d.take len) = .ok ()) :
    str_read data = (.ok (d.take len), d.drop len) := by
  simp [str_read, hp, hlen, from_utf8, hu]

lemma str_read_utf8_err {data : List Nat} {len : Nat} {d : List Nat} {p : Nat}
    (hp : parse_vlq_int data = (.ok len, d)) (hlen : ¬ d.length < len)
    (hu : utf8_check_from 0 (d.take len) = .error p) :
    str_read data = (.error (.Utf8Error p), d.drop len) := by
  simp [str_read, hp, hlen, from_utf8, hu]

lemma str_read_eof {data : List Nat} {len : Nat} {d : List Nat}
    (hp : parse_vlq_int data = (.ok len, d)) (hlen : d.length < len) :
    str_read data = (.error .UnexpectedEof, d) := by
  simp [str_read, hp, hlen]

lemma str_read_err {data : List Nat} {e : MessageDecodeError} {d : List Nat}
    (hp : parse_vlq_int data = (.error e, d)) :
    str_read data = (.error e, d) := by
  simp [str_read, hp]

lemma str_skip_ok {data : List Nat} {len : Nat} {d : List Nat}
    (hp : parse_vlq_int data = (.ok len, d)) (hlen : ¬ d.length < len) :
    str_skip data = (.ok (), d.drop len) := by
  simp [str_skip, hp, hlen]

lemma str_skip_eof {data : List Nat} {len : Nat} {d : List Nat}
    (hp : parse_vlq_int data = (.ok len, d)) (hlen : d.length < len) :
    str_skip data = (.error .UnexpectedEof, d) := by
  simp [str_skip, hp, hlen]

lemma str_skip_err {data : List Nat} {e : MessageDecodeError} {d : List Nat}
    (hp : parse_vlq_int data = (.error e, d)) :
    str_skip data = (.error e, d) := by
  simp [str_skip, hp]

/-! ## Skip/read parity, slice round-trips, field-level truncation -/

lemma int_parity {α : Type} {f : Nat → α} {data : List Nat} {val : α}
    {rest : List Nat} (h : mapResult f (parse_vlq_int data) = (.ok val, rest)) :
    mapResult (fun _ => ()) (parse_vlq_int data) = (.ok (), rest) := by
  obtain ⟨a, ha, _⟩ := mapResult_eq_ok.mp h
  rw [ha, mapResult]

lemma bytes_parity {data : List Nat} {val rest : List Nat}
    (h : bytes_read data = (.ok val, rest)) :
    bytes_skip data = (.ok (), rest) := by
  rcases hp : parse_vlq_int data with ⟨res, d⟩
  cases res with
  | error e =>
    rw [bytes_read_err hp] at h
    exact absurd h (by simp)
  | ok len =>
    by_cases hlen : d.length < len
    · rw [bytes_read_eof hp hlen] at h
      exact absurd h (by simp)
    · rw [bytes_read_ok hp hlen] at h
      have hrest : d.drop len = rest := congrArg Prod.snd h
      rw [bytes_skip_ok hp hlen, hrest]

lemma str_parity {data : List Nat} {val rest : List Nat}
    (h : str_read data = (.ok val, rest)) :
    str_skip data = (.ok (), rest) := by
  rcases hp : parse_vlq_int data with ⟨res, d⟩
  cases res with
  | error e =>
    rw [str_read_err hp] at h
    exact absurd h (by simp)
  | ok len =>
    by_cases hlen : d.length < len
    · rw [str_read_eof hp hlen] at h
      exact absurd h (by simp)
    · cases hu : utf8_check_from 0 (d.take len) with
      | ok u =>
        cases u
        rw [str_read_ok hp hlen hu] at h
        have hrest : d.drop len = rest := congrArg Prod.snd h
        rw [str_skip_ok hp hlen, hrest]
      | error p =>
        rw [str_read_utf8_err hp hlen hu] at h
        exact absurd h (by simp)

lemma bytes_roundtrip (v : List Nat) (hv : v.length < 2 ^ 32) (rest : List Nat) :
    bytes_read (bytes_write [] v ++ rest) = (.ok v, rest) := by
  unfold bytes_write
  have hlen : v.length % 2 ^ 32 = v.length := by omega
  rw [hlen, List.append_assoc]
  have hp := vlq_roundtrip v.length hv (v ++ rest)
  have hnl : ¬ (v ++ rest).length < v.length := by
    rw [List.length_append]
    omega
  rw [bytes_read_ok hp hnl, List.take_left' rfl, List.drop_left' rfl]

lemma str_roundtrip (s : List Nat) (hs : s.length < 2 ^ 32)
    (hu : utf8_check_from 0 s = .ok ()) (rest : List Nat) :
    str_read (str_write [] s ++ rest) = (.ok s, rest) := by
  unfold str_write
  have hlen : s.length % 2 ^ 32 = s.length := by omega
  rw [hlen, List.append_assoc]
  have hp := vlq_roundtrip s.length hs (s ++ rest)
  have hnl : ¬ (s ++ rest).length < s.length := by
    rw [List.length_append]
    omega
  have ht : (s ++ rest).take s.length = s := List.take_left' rfl
  have hd : (s ++ rest).drop s.length = rest := List.drop_left' rfl
  rw [str_read_ok hp hnl (by rw [ht]; exact hu), ht, hd]

/-- An integer `skip` that consumed the whole input fails with end-of-input on
the input minus its last byte, and so does the corresponding `read`. -/
lemma int_truncation {α : Type} (f : Nat → α) {data : List Nat}
    (h : mapResult (fun _ => ()) (parse_vlq_int data) = (.ok (), [])) :
    mapResult f (parse_vlq_int data.dropLast) =
      (.error .UnexpectedEof, []) := by
  obtain ⟨w, hw, _⟩ := mapResult_eq_ok.mp h
  rw [parse_vlq_int_truncation hw, mapResult]

lemma slice_len_consumed {data : List Nat} {len : Nat} {d : List Nat}
    (hp : parse_vlq_int data = (.ok len, d)) (hlen : ¬ d.length < len)
    (hdrop : d.drop len = []) : d.length = len := by
  have h1 : d.length - len = 0 := by
    have := congrArg List.length hdrop
    simpa using this
  omega

/-- If a length-prefixed `skip` consumed the whole input, then on the input
minus its last byte the VLQ length still parses (when the payload was
nonempty) but the remaining bytes fall short, or (when the payload was empty)
the VLQ itself is truncated; either way the result is end-of-input. -/
lemma slice_truncation_parse {data : List Nat} {len : Nat} {d : List Nat}
    (hp : parse_vlq_int data = (.ok len, d)) (hlen : ¬ d.length < len)
    (hdrop : d.drop len = []) :
    (∃ d', parse_vlq_int data.dropLast = (.ok len, d') ∧ d'.length < len) ∨
      parse_vlq_int data.dropLast = (.error .UnexpectedEof, []) := by
  have hdl : d.length = len := slice_len_consumed hp hlen hdrop
  cases d with
  | nil =>
    -- empty payload: the whole input is the VLQ length prefix
    right
    exact parse_vlq_int_truncation hp
  | cons d0 d' =>
    left
    obtain ⟨p, hpd, hall⟩ := parse_vlq_int_prefix hp
    have hne : (d0 :: d') ≠ ([] : List Nat) := by simp
    rw [hpd, List.dropLast_append_of_ne_nil p hne]
    refine ⟨(d0 :: d').dropLast, hall _, ?_⟩
    rw [List.length_dropLast]
    simp only [List.length_cons] at hdl ⊢
    omega

lemma bytes_skip_truncation {data : List Nat}
    (h : bytes_skip data = (.ok (), [])) :
    (bytes_skip data.dropLast).1 = .error .UnexpectedEof ∧
      (bytes_read data.dropLast).1 = .error .UnexpectedEof ∧
      (str_read data.dropLast).1 = .error .UnexpectedEof ∧
      (str_skip data.dropLast).1 = .error .UnexpectedEof := by
  rcases hp : parse_vlq_int data with ⟨res, d⟩
  cases res with
  | error e =>
    rw [bytes_skip_err hp] at h
    exact absurd h (by simp)
  | ok len =>
    by_cases hlen : d.length < len
    · rw [bytes_skip_eof hp hlen] at h
      exact absurd h (by simp)
    · rw [bytes_skip_ok hp hlen] at h
      have hdrop : d.drop len = [] := congrArg Prod.snd h
      rcases slice_truncation_parse hp hlen hdrop with ⟨d', hp', hlt⟩ | hp'
      · rw [bytes_skip_eof hp' hlt, bytes_read_eof hp' hlt,
          str_read_eof hp' hlt, str_skip_eof hp' hlt]
        exact ⟨rfl, rfl, rfl, rfl⟩
      · rw [bytes_skip_err hp', bytes_read_err hp', str_read_err hp',
          str_skip_err hp']
        exact ⟨rfl, rfl, rfl, rfl⟩

lemma init_lt (c : Nat) :
    (if c &&& 0x60 = 0x60 then (c &&& 0x7F) ||| 0xFFFFFFE0 else c &&& 0x7F) <
      2 ^ 32 := by
  split_ifs with hs
  · have H : ∀ a < 128, a ||| 0xFFFFFFE0 < 2 ^ 32 := by decide
    exact H _ (by rw [land_7f]; omega)
  · rw [land_7f]
    omega

lemma parse_all_cont {data : List Nat} (h : ∀ x ∈ data, x &&& 0x80 ≠ 0) :
    parse_vlq_int data = (.error .UnexpectedEof, []) := by
  cases data with
  | nil => simp [parse_vlq_int, next_byte]
  | cons c rest =>
    rw [parse_vlq_int_cons]
    exact parse_vlq_loop_all_cont rest c _ (fun x hx => h x (by simp [hx]))
      (h c (by simp))

lemma parse_first_clear (p : List Nat) (b : Nat) (r : List Nat)
    (hall : ∀ x ∈ p, x &&& 0x80 ≠ 0) (hb : b &&& 0x80 = 0) :
    ∃ w, parse_vlq_int (p ++ b :: r) = (.ok w, r) ∧ w < 2 ^ 32 := by
  cases p with
  | nil =>
    rw [List.nil_append, parse_vlq_int_cons, parse_vlq_loop_stop hb]
    exact ⟨_, rfl, init_lt b⟩
  | cons x p' =>
    rw [List.cons_append, parse_vlq_int_cons]
    exact parse_vlq_loop_first_clear p' x _ b r (fun y hy => hall y (by simp [hy]))
      (hall x (by simp)) hb (init_lt x)

lemma mapResult_mapResult {α β γ : Type} (g : β → γ) (f : α → β)
    (p : Except MessageDecodeError α × List Nat) :
    mapResult g (mapResult f p) = mapResult (fun a => g (f a)) p := by
  obtain ⟨res, d⟩ := p
  cases res <;> rfl

lemma str_skip_eq_bytes_skip (data : List Nat) : str_skip data = bytes_skip data :=
  rfl

lemma parse_consumes_nonempty {data : List Nat} {len : Nat} {d : List Nat}
    (hp : parse_vlq_int data = (.ok len, d)) :
    ∃ pre, data = pre ++ d ∧ pre ≠ [] := by
  obtain ⟨p, hpd, hall⟩ := parse_vlq_int_prefix hp
  refine ⟨p, hpd, ?_⟩
  intro hnil
  have h1 := hall []
  rw [hnil] at h1
  simp [parse_vlq_int, next_byte] at h1

/-! ## Claim theorems -/

/-- C1: for every integer type `T` in `{u32, i32, u16, i16, u8}` and every
value representable in `T`, `Writable::write` (which calls `encode_vlq_int`)
appends between 1 and 5 bytes, and `Readable::read` (which calls
`parse_vlq_int`) on those bytes (followed by any further bytes) returns exactly
the original value, consuming exactly the appended bytes.  The quantification
over the full value ranges covers in particular the chunk-boundary values 0,
63, 64, -64, -65, 8191, 8192, -8192, -8193, 1048575, 1048576 and `T::MIN`,
`T::MAX` of every type. -/
theorem C1_integer_roundtrip :
    (∀ output v, encode_vlq_int output v = output ++ encode_vlq_int [] v) ∧
    (∀ v : Nat, v < 2 ^ 32 →
      (1 ≤ (u32_write [] v).length ∧ (u32_write [] v).length ≤ 5) ∧
      ∀ rest, u32_read (u32_write [] v ++ rest) = (.ok v, rest)) ∧
    (∀ x : Int, -(2 ^ 31) ≤ x → x < 2 ^ 31 →
      (1 ≤ (i32_write [] x).length ∧ (i32_write [] x).length ≤ 5) ∧
      ∀ rest, i32_read (i32_write [] x ++ rest) = (.ok x, rest)) ∧
    (∀ v : Nat, v < 2 ^ 16 →
      (1 ≤ (u16_write [] v).length ∧ (u16_write [] v).length ≤ 5) ∧
      ∀ rest, u16_read (u16_write [] v ++ rest) = (.ok v, rest)) ∧
    (∀ x : Int, -(2 ^ 15) ≤ x → x < 2 ^ 15 →
      (1 ≤ (i16_write [] x).length ∧ (i16_write [] x).length ≤ 5) ∧
      ∀ rest, i16_read (i16_write [] x ++ rest) = (.ok x, rest)) ∧
    (∀ v : Nat, v < 2 ^ 8 →
      (1 ≤ (u8_write [] v).length ∧ (u8_write [] v).length ≤ 5) ∧
      ∀ rest, u8_read (u8_write [] v ++ rest) = (.ok v, rest)) :=
  ⟨encode_vlq_int_append,
    fun v hv => ⟨encode_vlq_length_bounds v hv, fun rest => u32_roundtrip v hv rest⟩,
    fun x h1 h2 =>
      ⟨encode_vlq_length_bounds _ (toUnsigned_lt x), fun rest => i32_roundtrip x h1 h2 rest⟩,
    fun v hv =>
      ⟨encode_vlq_length_bounds v (by omega), fun rest => u16_roundtrip v hv rest⟩,
    fun x h1 h2 =>
      ⟨encode_vlq_length_bounds _ (toUnsigned_lt x), fun rest => i16_roundtrip x h1 h2 rest⟩,
    fun v hv =>
      ⟨encode_vlq_length_bounds v (by omega), fun rest => u8_roundtrip v hv rest⟩⟩

/-- Witness for C1 at the chunk-boundary value 8192 (u32). -/
theorem C1_integer_roundtrip_witness :
    (8192 : Nat) < 2 ^ 32 ∧
      u32_read (u32_write [] 8192 ++ [7]) = (.ok 8192, [7]) :=
  ⟨by norm_num, (C1_integer_roundtrip.2.1 8192 (by norm_num)).2 [7]⟩

/-- C2 counterexample: at `v = 96` and chunk position `k = 1`, the chunk byte
at bit offset 7 is emitted (the encoding has 2 bytes), although `96` lies
inside the range `[-(1 <<< (7*1-1)), 3 * (1 <<< (7*1-1))) = [-64, 192)` that
the claim gives for that boundary — so the claimed "emitted iff outside
`[-(1<<(7k-1)), 3*(1<<(7k-1)))`" equivalence is false (and the claim's
alternative bound `7k-5` fails the same way). -/
theorem C2_counterexample :
    1 < (encode_vlq_int [] 96).length ∧
      (-((1 : Int) <<< 6) ≤ toSigned 96 ∧ toSigned 96 < 3 * (1 <<< 6)) := by
  constructor
  · decide
  · decide

/-- C2 amended: the chunk byte at bit offset `7*k` (for `k = 4, 3, 2, 1`) is
emitted if and only if the signed 32-bit value lies outside
`[-(2^(7k-2)), 3 * 2^(7k-2))` — exponent `7k-2`, not the claim's `7k-1`
(nor `7k-5`). -/
theorem C2_chunk_emission (v : Nat) (hv : v < 2 ^ 32) (k : Nat)
    (hk1 : 1 ≤ k) (hk4 : k ≤ 4) :
    k < (encode_vlq_int [] v).length ↔
      ¬ (-((2 : Int) ^ (7 * k - 2)) ≤ toSigned v ∧
          toSigned v < 3 * 2 ^ (7 * k - 2)) := by
  rw [encode_vlq_length_spec v hv]
  interval_cases k <;> (norm_num; unfold toSigned; split_ifs <;> omega)

/-- Witness for C2 (amended) at `v = 8192`, `k = 1`. -/
theorem C2_chunk_emission_witness :
    (8192 : Nat) < 2 ^ 32 ∧ 1 ≤ 1 ∧ 1 ≤ 4 ∧
      (1 < (encode_vlq_int [] 8192).length ↔
        ¬ (-((2 : Int) ^ (7 * 1 - 2)) ≤ toSigned 8192 ∧
            toSigned 8192 < 3 * 2 ^ (7 * 1 - 2))) :=
  ⟨by norm_num, le_refl 1, by norm_num,
    C2_chunk_emission 8192 (by norm_num) 1 (le_refl 1) (by norm_num)⟩

/-- C3: for every `FieldType` and every cursor on which `FieldType::read`
succeeds (a valid encoding of a field of that type, possibly followed by
further bytes), `FieldType::skip` on the same cursor succeeds and leaves the
cursor at exactly the same position, i.e. consumes exactly the same bytes. -/
theorem C3_skip_read_parity (ft : FieldType) (data : List Nat)
    (val : FieldValue) (rest : List Nat)
    (h : FieldType.read ft data = (.ok val, rest)) :
    FieldType.skip ft data = (.ok (), rest) := by
  cases ft <;> simp only [FieldType.read, FieldType.skip] at h ⊢
  case U32 =>
    rw [u32_read, mapResult_mapResult] at h
    rw [u32_skip]
    exact int_parity h
  case I32 =>
    rw [i32_read, mapResult_mapResult] at h
    rw [i32_skip]
    exact int_parity h
  case U16 =>
    rw [u16_read, mapResult_mapResult] at h
    rw [u16_skip]
    exact int_parity h
  case I16 =>
    rw [i16_read, mapResult_mapResult] at h
    rw [i16_skip]
    exact int_parity h
  case U8 =>
    rw [u8_read, mapResult_mapResult] at h
    rw [u8_skip]
    exact int_parity h
  case String =>
    obtain ⟨s, hs, _⟩ := mapResult_eq_ok.mp h
    exact str_parity hs
  case ByteArray =>
    obtain ⟨s, hs, _⟩ := mapResult_eq_ok.mp h
    exact bytes_parity hs

/-- Witness for C3 with a `U8` field over the single-byte encoding `[5]`. -/
theorem C3_skip_read_parity_witness :
    FieldType.read FieldType.U8 [5] = (.ok (FieldValue.U8 5), []) ∧
      FieldType.skip FieldType.U8 [5] = (.ok (), []) :=
  ⟨rfl, C3_skip_read_parity FieldType.U8 [5] (FieldValue.U8 5) [] rfl⟩

/-- C4 counterexample: the claim quantifies over *every* byte slice, but
`write` encodes the length as `self.len() as u32`, truncating it modulo
`2 ^ 32`.  For the slice of `2 ^ 32` zero bytes the length prefix encodes 0,
so reading the written bytes back yields the empty slice, not the original. -/
theorem C4_counterexample :
    bytes_read (bytes_write [] (List.replicate (2 ^ 32) 0) ++ []) ≠
      (.ok (List.replicate (2 ^ 32) 0), []) := by
  unfold bytes_write
  rw [List.length_replicate, show (2 ^ 32 : Nat) % 2 ^ 32 = 0 by norm_num,
    show encode_vlq_int [] 0 = [0] by decide, List.append_nil,
    List.singleton_append]
  have hp : parse_vlq_int (0 :: List.replicate (2 ^ 32) 0) =
      (.ok 0, List.replicate (2 ^ 32) 0) := by
    rw [parse_vlq_int_cons, parse_vlq_loop_stop (by decide)]
    rw [if_neg (by decide : ¬ ((0 : Nat) &&& 0x60 = 0x60)),
      show (0 : Nat) &&& 0x7F = 0 by decide]
  rw [bytes_read_ok hp (Nat.not_lt_zero _), List.take_zero, List.drop_zero]
  intro hEq
  have h2 : List.replicate (2 ^ 32) (0 : Nat) = [] := congrArg Prod.snd hEq
  have h3 := congrArg List.length h2
  rw [List.length_replicate, List.length_nil] at h3
  exact absurd h3 (by norm_num)

/-- C4 amended: for every byte slice and every valid UTF-8 string whose length
is representable in the `u32` length prefix (`< 2 ^ 32` — the `len as u32`
cast truncates longer inputs), writing the VLQ length prefix followed by the
raw bytes and reading it back returns exactly the original value, consuming
exactly the written bytes. -/
theorem C4_slice_string_roundtrip :
    (∀ v : List Nat, v.length < 2 ^ 32 → ∀ rest,
        bytes_read (bytes_write [] v ++ rest) = (.ok v, rest)) ∧
    (∀ s : List Nat, s.length < 2 ^ 32 → utf8_check_from 0 s = .ok () →
        ∀ rest, str_read (str_write [] s ++ rest) = (.ok s, rest)) :=
  ⟨bytes_roundtrip, str_roundtrip⟩

/-- Witness for C4 (amended) with the two-byte UTF-8 string "é"
(`[0xC3, 0xA9]`). -/
theorem C4_slice_string_roundtrip_witness :
    ([0xC3, 0xA9] : List Nat).length < 2 ^ 32 ∧
      utf8_check_from 0 [0xC3, 0xA9] = .ok () ∧
      str_read (str_write [] [0xC3, 0xA9] ++ [7]) = (.ok [0xC3, 0xA9], [7]) :=
  ⟨by norm_num, by decide,
    C4_slice_string_roundtrip.2 [0xC3, 0xA9] (by norm_num) (by decide) [7]⟩

/-- C5: for every `FieldType`, if `skip` succeeds on `enc` consuming all of it
(`enc` is a valid encoding of a field of that type), then both `skip` and
`read` on `enc` minus its final byte fail with `UnexpectedEof`. -/
theorem C5_truncation (ft : FieldType) (enc : List Nat)
    (h : FieldType.skip ft enc = (.ok (), [])) :
    (FieldType.skip ft enc.dropLast).1 = .error .UnexpectedEof ∧
      (FieldType.read ft enc.dropLast).1 = .error .UnexpectedEof := by
  cases ft <;> simp only [FieldType.skip, FieldType.read] at h ⊢
  case U32 =>
    rw [u32_skip] at h
    exact ⟨by rw [u32_skip, int_truncation _ h],
      by rw [u32_read, mapResult_mapResult, int_truncation _ h]⟩
  case I32 =>
    rw [i32_skip] at h
    exact ⟨by rw [i32_skip, int_truncation _ h],
      by rw [i32_read, mapResult_mapResult, int_truncation _ h]⟩
  case U16 =>
    rw [u16_skip] at h
    exact ⟨by rw [u16_skip, int_truncation _ h],
      by rw [u16_read, mapResult_mapResult, int_truncation _ h]⟩
  case I16 =>
    rw [i16_skip] at h
    exact ⟨by rw [i16_skip, int_truncation _ h],
      by rw [i16_read, mapResult_mapResult, int_truncation _ h]⟩
  case U8 =>
    rw [u8_skip] at h
    exact ⟨by rw [u8_skip, int_truncation _ h],
      by rw [u8_read, mapResult_mapResult, int_truncation _ h]⟩
  case String =>
    rw [str_skip_eq_bytes_skip] at h
    obtain ⟨_, _, h3, h4⟩ := bytes_skip_truncation h
    exact ⟨by rw [str_skip_eq_bytes_skip]; exact h4.symm ▸ h4,
      mapResult_fst_error.mpr h3⟩
  case ByteArray =>
    obtain ⟨h1, h2, _, _⟩ := bytes_skip_truncation h
    exact ⟨h1, mapResult_fst_error.mpr h2⟩

/-- Witness for C5 with a `U8` field over the single-byte encoding `[5]`. -/
theorem C5_truncation_witness :
    FieldType.skip FieldType.U8 [5] = (.ok (), []) ∧
      ((FieldType.skip FieldType.U8 ([5] : List Nat).dropLast).1 =
          .error .UnexpectedEof ∧
        (FieldType.read FieldType.U8 ([5] : List Nat).dropLast).1 =
          .error .UnexpectedEof) :=
  ⟨rfl, C5_truncation FieldType.U8 [5] rfl⟩

/-- C6: reading a string field whose length-prefixed payload is not valid
UTF-8 fails with `Utf8Error` carrying the validation detail, and the final
cursor is `d.drop len`: the cursor has been advanced past the invalid payload
(the length's worth of bytes is consumed before validation).  In particular
the payload `[0xFF, 0xFE]` under length prefix 2 fails this way. -/
theorem C6_utf8_error_path :
    (∀ data len d p, parse_vlq_int data = (.ok len, d) → ¬ d.length < len →
        utf8_check_from 0 (d.take len) = .error p →
        str_read data = (.error (.Utf8Error p), d.drop len)) ∧
    (∀ rest, str_read (2 :: 0xFF :: 0xFE :: rest) =
        (.error (.Utf8Error 0), rest)) := by
  refine ⟨fun data len d p hp hlen hu => str_read_utf8_err hp hlen hu,
    fun rest => ?_⟩
  have hp : parse_vlq_int (2 :: 0xFF :: 0xFE :: rest) =
      (.ok 2, 0xFF :: 0xFE :: rest) := by
    rw [parse_vlq_int_cons, parse_vlq_loop_stop (by decide)]
    rw [if_neg (by decide : ¬ ((2 : Nat) &&& 0x60 = 0x60)),
      show (2 : Nat) &&& 0x7F = 2 by decide]
  have hlen : ¬ (0xFF :: 0xFE :: rest).length < 2 := by simp
  have hu : utf8_check_from 0 ((0xFF :: 0xFE :: rest).take 2) = .error 0 := by
    rw [show (0xFF :: 0xFE :: rest).take 2 = [0xFF, 0xFE] from rfl]
    rfl
  rw [str_read_utf8_err hp hlen hu]
  rfl

/-- Witness for C6 on the exact input `[2, 0xFF, 0xFE]`. -/
theorem C6_utf8_error_path_witness :
    parse_vlq_int [2, 0xFF, 0xFE] = (.ok 2, [0xFF, 0xFE]) ∧
      ¬ ([0xFF, 0xFE] : List Nat).length < 2 ∧
      utf8_check_from 0 (([0xFF, 0xFE] : List Nat).take 2) = .error 0 ∧
      str_read [2, 0xFF, 0xFE] =
        (.error (.Utf8Error 0), ([0xFF, 0xFE] : List Nat).drop 2) :=
  ⟨by decide, by decide, by decide,
    C6_utf8_error_path.1 [2, 0xFF, 0xFE] 2 [0xFF, 0xFE] 0 (by decide)
      (by decide) (by decide)⟩

lemma dispatch_value_iff {α : Type} {mk : α → FieldValue}
    (hinj : ∀ a b, mk a = mk b → a = b)
    (reader : List Nat → Except MessageDecodeError α × List Nat)
    (input : List Nat) (v : α) (rest : List Nat) :
    mapResult mk (reader input) = (.ok (mk v), rest) ↔
      reader input = (.ok v, rest) := by
  rw [mapResult_eq_ok]
  constructor
  · rintro ⟨a, ha, heq⟩
    obtain rfl := hinj v a heq
    exact ha
  · intro hr
    exact ⟨v, hr, rfl⟩

/-- C7: for every `FieldType`, `FieldType::read` returns the `FieldValue`
variant matching the tag with exactly the value produced by the corresponding
direct typed `read` on the same input (with string and byte-array content
copied to owned form — the identity on the modelled bytes), leaving the cursor
in the same position; and it returns an error exactly when (and which) the
direct typed read does. -/
theorem C7_dispatch_equivalence :
    (∀ input v rest, FieldType.read FieldType.U32 input =
        (.ok (FieldValue.U32 v), rest) ↔ u32_read input = (.ok v, rest)) ∧
    (∀ input v rest, FieldType.read FieldType.I32 input =
        (.ok (FieldValue.I32 v), rest) ↔ i32_read input = (.ok v, rest)) ∧
    (∀ input v rest, FieldType.read FieldType.U16 input =
        (.ok (FieldValue.U16 v), rest) ↔ u16_read input = (.ok v, rest)) ∧
    (∀ input v rest, FieldType.read FieldType.I16 input =
        (.ok (FieldValue.I16 v), rest) ↔ i16_read input = (.ok v, rest)) ∧
    (∀ input v rest, FieldType.read FieldType.U8 input =
        (.ok (FieldValue.U8 v), rest) ↔ u8_read input = (.ok v, rest)) ∧
    (∀ input s rest, FieldType.read FieldType.String input =
        (.ok (FieldValue.String s), rest) ↔ str_read input = (.ok s, rest)) ∧
    (∀ input s rest, FieldType.read FieldType.ByteArray input =
        (.ok (FieldValue.ByteArray s), rest) ↔ bytes_read input = (.ok s, rest)) ∧
    (∀ input e, (FieldType.read FieldType.U32 input).1 = .error e ↔
        (u32_read input).1 = .error e) ∧
    (∀ input e, (FieldType.read FieldType.I32 input).1 = .error e ↔
        (i32_read input).1 = .error e) ∧
    (∀ input e, (FieldType.read FieldType.U16 input).1 = .error e ↔
        (u16_read input).1 = .error e) ∧
    (∀ input e, (FieldType.read FieldType.I16 input).1 = .error e ↔
        (i16_read input).1 = .error e) ∧
    (∀ input e, (FieldType.read FieldType.U8 input).1 = .error e ↔
        (u8_read input).1 = .error e) ∧
    (∀ input e, (FieldType.read FieldType.String input).1 = .error e ↔
        (str_read input).1 = .error e) ∧
    (∀ input e, (FieldType.read FieldType.ByteArray input).1 = .error e ↔
        (bytes_read input).1 = .error e) :=
  ⟨fun input v rest =>
      dispatch_value_iff (fun _ _ h => by injection h) u32_read input v rest,
    fun input v rest =>
      dispatch_value_iff (fun _ _ h => by injection h) i32_read input v rest,
    fun input v rest =>
      dispatch_value_iff (fun _ _ h => by injection h) u16_read input v rest,
    fun input v rest =>
      dispatch_value_iff (fun _ _ h => by injection h) i16_read input v rest,
    fun input v rest =>
      dispatch_value_iff (fun _ _ h => by injection h) u8_read input v rest,
    fun input s rest =>
      dispatch_value_iff (fun _ _ h => by injection h) str_read input s rest,
    fun input s rest =>
      dispatch_value_iff (fun _ _ h => by injection h) bytes_read input s rest,
    fun _ _ => mapResult_fst_error, fun _ _ => mapResult_fst_error,
    fun _ _ => mapResult_fst_error, fun _ _ => mapResult_fst_error,
    fun _ _ => mapResult_fst_error, fun _ _ => mapResult_fst_error,
    fun _ _ => mapResult_fst_error⟩

/-- Witness for C7: a `U16` field over the two-byte encoding of 300. -/
theorem C7_dispatch_equivalence_witness :
    u16_read [0x82, 0x2C] = (.ok 300, []) ∧
      FieldType.read FieldType.U16 [0x82, 0x2C] =
        (.ok (FieldValue.U16 300), []) :=
  ⟨by decide, (C7_dispatch_equivalence.2.2.1 [0x82, 0x2C] 300 []).mpr (by decide)⟩

/-- C8: writing `false` appends exactly the single byte `0x00` and writing
`true` appends exactly `0x01`; reading a boolean from any successfully parsed
VLQ yields `true` iff the decoded value is nonzero; and `bool`'s field-type
tag is `FieldType::U8`. -/
theorem C8_bool_semantics :
    bool_write [] false = [0x00] ∧ bool_write [] true = [0x01] ∧
    (∀ data v d, parse_vlq_int data = (.ok v, d) →
        bool_read data = (.ok (decide (v ≠ 0)), d)) ∧
    bool_as_field_type = FieldType.U8 := by
  refine ⟨by decide, by decide, fun data v d h => ?_, rfl⟩
  rw [bool_read]
  exact mapResult_parse_ok _ h

/-- Witness for C8 at the one-byte VLQ `[1]` (decodes to the nonzero value 1,
hence `true`). -/
theorem C8_bool_semantics_witness :
    parse_vlq_int [1] = (.ok 1, []) ∧ bool_read [1] = (.ok true, []) :=
  ⟨rfl, C8_bool_semantics.2.2.1 [1] 1 [] rfl⟩

/-- C9: `parse_vlq_int` is total (modelled as a total Lean function over the
cursor) and consumes exactly the prefix of the input up to and including the
first byte whose continuation bit `0x80` is clear: if every input byte has the
continuation bit set (in particular on empty input) it returns `UnexpectedEof`
with the cursor exhausted, and if a clear-bit byte exists, it succeeds, leaves
exactly the bytes after that byte, and returns a value `< 2 ^ 32`.  No 5-byte
maximum is enforced: the final conjunct shows a 6-byte continuation chain that
is accepted, with the accumulated value wrapping modulo `2 ^ 32` to 0. -/
theorem C9_parse_totality :
    (∀ data : List Nat, (∀ x ∈ data, x &&& 0x80 ≠ 0) →
        parse_vlq_int data = (.error .UnexpectedEof, [])) ∧
    (∀ (p : List Nat) (b : Nat) (r : List Nat),
        (∀ x ∈ p, x &&& 0x80 ≠ 0) → b &&& 0x80 = 0 →
        ∃ w, parse_vlq_int (p ++ b :: r) = (.ok w, r) ∧ w < 2 ^ 32) ∧
    parse_vlq_int [0x81, 0x80, 0x80, 0x80, 0x80, 0x00] = (.ok 0, []) :=
  ⟨fun _ h => parse_all_cont h, parse_first_clear, by decide⟩

/-- Witness for C9: the continuation chain `[0x81]` followed by the clear byte
`0` and further bytes `[9]`. -/
theorem C9_parse_totality_witness :
    ∃ w, parse_vlq_int ([0x81] ++ 0 :: [9]) = (.ok w, [9]) ∧ w < 2 ^ 32 :=
  C9_parse_totality.2.1 [0x81] 0 [9] (by decide) (by decide)

/-- C10: when a byte-array or string `read`/`skip` fails with `UnexpectedEof`
because fewer bytes remain after the length prefix than the decoded length,
the final cursor is exactly the position after the VLQ length prefix (a
nonempty prefix of the input has been consumed, none of the payload): decode
failures are not atomic. -/
theorem C10_nonatomic_eof (data : List Nat) (len : Nat) (d : List Nat)
    (hp : parse_vlq_int data = (.ok len, d)) (hlen : d.length < len) :
    (∃ pre, data = pre ++ d ∧ pre ≠ []) ∧
      bytes_read data = (.error .UnexpectedEof, d) ∧
      bytes_skip data = (.error .UnexpectedEof, d) ∧
      str_read data = (.error .UnexpectedEof, d) ∧
      str_skip data = (.error .UnexpectedEof, d) :=
  ⟨parse_consumes_nonempty hp, bytes_read_eof hp (by omega),
    bytes_skip_eof hp (by omega), str_read_eof hp (by omega),
    str_skip_eof hp (by omega)⟩

/-- Witness for C10 on `[5, 1, 2]`: length prefix 5, but only 2 payload bytes
remain; the error cursor is `[1, 2]`, past the prefix. -/
theorem C10_nonatomic_eof_witness :
    parse_vlq_int [5, 1, 2] = (.ok 5, [1, 2]) ∧ ([1, 2] : List Nat).length < 5 ∧
      ((∃ pre, ([5, 1, 2] : List Nat) = pre ++ [1, 2] ∧ pre ≠ []) ∧
        bytes_read [5, 1, 2] = (.error .UnexpectedEof, [1, 2]) ∧
        bytes_skip [5, 1, 2] = (.error .UnexpectedEof, [1, 2]) ∧
        str_read [5, 1, 2] = (.error .UnexpectedEof, [1, 2]) ∧
        str_skip [5, 1, 2] = (.error .UnexpectedEof, [1, 2])) :=
  ⟨by decide, by decide, C10_nonatomic_eof [5, 1, 2] 5 [1, 2] (by decide) (by decide)⟩

end Windlass
